import Mathlib

/-!
Verification of the streaming chat relay implemented in
`src/app/api/chat/route.ts`.

The development shallowly embeds the route handler:

* the upstream protocol adapter of `POST` (the `ReadableStream` `start`
  loop): a byte-level machine with the stateful WHATWG UTF-8 decode used by
  `TextDecoder.decode(value, stream: true)`, the carry-over line buffer,
  `JSON.parse` per complete line, and extraction of
  `candidates?.[0]?.content?.parts?.[0]?.text`;
* the fallback content selector `generateFallbackResponse`;
* the chunk pacer of `streamFallbackResponse`;
* the validation and dispatch logic of `POST` in the configuration with no
  `GEMINI_API_KEY` credential.

JS strings are modelled as `List Char` (sequences of Unicode scalar
values), bytes as `Nat` values below 256.  JSON numbers keep their source
lexeme; the JS number-to-string rendering of a parsed double is
approximated by that lexeme (no claim exercises a non-string value at the
text path).  A lone surrogate produced by a `\u` escape is modelled as
U+FFFD, which is what `TextEncoder.encode` emits for it on output.
-/

namespace ChatApi

/-- U+FFFD, the replacement character emitted by the WHATWG UTF-8 decoder
on malformed input and by `TextEncoder` for lone surrogates. -/
def replacementChar : Char := Char.ofNat 0xfffd

/-- The newline character on which the adapter splits the buffered text
(`buffer.split('\n')`). -/
def newlineChar : Char := Char.ofNat 10

/-! ### JSON values (model of the values produced by `JSON.parse`) -/

/-- A parsed JSON value.  Numbers keep their source lexeme. -/
inductive Json where
  | null : Json
  | bool (b : Bool) : Json
  | num (lexeme : List Char) : Json
  | str (s : List Char) : Json
  | arr (elts : List Json) : Json
  | obj (fields : List (List Char × Json)) : Json

/-! ### JSON parsing (model of `JSON.parse` on one line) -/

/-- JSON insignificant whitespace: space, tab, line feed, carriage return. -/
def jsonWs (c : Char) : Bool :=
  c.toNat = 32 || c.toNat = 9 || c.toNat = 10 || c.toNat = 13

/-- Drop leading JSON whitespace. -/
def skipWs : List Char → List Char
  | [] => []
  | c :: cs => if jsonWs c then skipWs cs else c :: cs

/-- Value of one hexadecimal digit. -/
def hexDigitVal (c : Char) : Option Nat :=
  if '0' ≤ c ∧ c ≤ '9' then some (c.toNat - 48)
  else if 'a' ≤ c ∧ c ≤ 'f' then some (c.toNat - 87)
  else if 'A' ≤ c ∧ c ≤ 'F' then some (c.toNat - 55)
  else none

/-- Value of a four-hex-digit escape payload. -/
def hex4 (a b c d : Char) : Option Nat := do
  let x ← hexDigitVal a
  let y ← hexDigitVal b
  let z ← hexDigitVal c
  let w ← hexDigitVal d
  pure (((x * 16 + y) * 16 + z) * 16 + w)

/-- Single-character JSON string escapes. -/
def escapeChar (c : Char) : Option Char :=
  if c = '"' then some '"'
  else if c = '\\' then some '\\'
  else if c = '/' then some '/'
  else if c = 'b' then some '\x08'
  else if c = 'f' then some '\x0c'
  else if c = 'n' then some '\x0a'
  else if c = 'r' then some '\x0d'
  else if c = 't' then some '\x09'
  else none

/-- Parse the remainder of a JSON string after its opening quote; returns
the decoded content and the input after the closing quote.  Surrogate
pairs written with `\u` escapes are combined; a lone surrogate is
modelled as U+FFFD (see the header note). -/
def parseStringRest : Nat → List Char → Option (List Char × List Char)
  | 0, _ => none
  | _ + 1, [] => none
  | fuel + 1, c :: cs =>
    if c = '"' then some ([], cs)
    else if c = '\\' then
      match cs with
      | [] => none
      | e :: cs2 =>
        if e = 'u' then
          match cs2 with
          | h1 :: h2 :: h3 :: h4 :: cs6 =>
            match hex4 h1 h2 h3 h4 with
            | none => none
            | some v =>
              if 0xd800 ≤ v ∧ v ≤ 0xdbff then
                match cs6 with
                | '\\' :: 'u' :: g1 :: g2 :: g3 :: g4 :: cs12 =>
                  match hex4 g1 g2 g3 g4 with
                  | some w =>
                    if 0xdc00 ≤ w ∧ w ≤ 0xdfff then
                      (parseStringRest fuel cs12).map fun p =>
                        (Char.ofNat (0x10000 + (v - 0xd800) * 0x400 + (w - 0xdc00)) :: p.1, p.2)
                    else (parseStringRest fuel cs6).map fun p => (replacementChar :: p.1, p.2)
                  | none => (parseStringRest fuel cs6).map fun p => (replacementChar :: p.1, p.2)
                | _ => (parseStringRest fuel cs6).map fun p => (replacementChar :: p.1, p.2)
              else if 0xdc00 ≤ v ∧ v ≤ 0xdfff then
                (parseStringRest fuel cs6).map fun p => (replacementChar :: p.1, p.2)
              else
                (parseStringRest fuel cs6).map fun p => (Char.ofNat v :: p.1, p.2)
          | _ => none
        else
          match escapeChar e with
          | some ch => (parseStringRest fuel cs2).map fun p => (ch :: p.1, p.2)
          | none => none
    else if c.toNat < 0x20 then none
    else (parseStringRest fuel cs).map fun p => (c :: p.1, p.2)

/-- Parse the optional fraction and exponent of a number, extending the
lexeme accumulated so far. -/
def parseFracExp (lex : List Char) (cs : List Char) : Option (List Char × List Char) :=
  let step1 : Option (List Char × List Char) :=
    match cs with
    | '.' :: t =>
      let ds := t.takeWhile Char.isDigit
      if ds.isEmpty then none
      else some (lex ++ '.' :: ds, t.dropWhile Char.isDigit)
    | _ => some (lex, cs)
  match step1 with
  | none => none
  | some (lex2, cs2) =>
    match cs2 with
    | e :: t =>
      if e = 'e' || e = 'E' then
        let sgnT : List Char × List Char :=
          match t with
          | '+' :: t3 => (['+'], t3)
          | '-' :: t3 => (['-'], t3)
          | _ => ([], t)
        let ds := sgnT.2.takeWhile Char.isDigit
        if ds.isEmpty then none
        else some (lex2 ++ e :: (sgnT.1 ++ ds), sgnT.2.dropWhile Char.isDigit)
      else some (lex2, cs2)
    | [] => some (lex2, cs2)

/-- Parse a JSON number lexeme (`-? (0 | [1-9][0-9]*) frac? exp?`). -/
def parseNum (cs : List Char) : Option (List Char × List Char) :=
  let signT : List Char × List Char :=
    match cs with
    | '-' :: t => (['-'], t)
    | _ => ([], cs)
  match signT.2 with
  | [] => none
  | c :: t =>
    if c = '0' then parseFracExp (signT.1 ++ [c]) t
    else if c.isDigit then
      parseFracExp (signT.1 ++ (c :: t).takeWhile Char.isDigit)
        ((c :: t).dropWhile Char.isDigit)
    else none

mutual

/-- Parse one JSON value.  The fuel argument bounds the recursion depth;
`parseJson` supplies enough fuel for any input. -/
def parseValue : Nat → List Char → Option (Json × List Char)
  | 0, _ => none
  | _ + 1, [] => none
  | fuel + 1, c :: cs =>
    if c = 'n' then
      match cs with
      | 'u' :: 'l' :: 'l' :: r => some (Json.null, r)
      | _ => none
    else if c = 't' then
      match cs with
      | 'r' :: 'u' :: 'e' :: r => some (Json.bool true, r)
      | _ => none
    else if c = 'f' then
      match cs with
      | 'a' :: 'l' :: 's' :: 'e' :: r => some (Json.bool false, r)
      | _ => none
    else if c = '"' then
      (parseStringRest (cs.length + 1) cs).map fun p => (Json.str p.1, p.2)
    else if c = '-' || c.isDigit then
      (parseNum (c :: cs)).map fun p => (Json.num p.1, p.2)
    else if c = '[' then
      match skipWs cs with
      | ']' :: r => some (Json.arr [], r)
      | cs1 => (parseElems fuel cs1).map fun p => (Json.arr p.1, p.2)
    else if c = '\x7b' then
      match skipWs cs with
      | '\x7d' :: r => some (Json.obj [], r)
      | cs1 => (parseFields fuel cs1).map fun p => (Json.obj p.1, p.2)
    else none

/-- Parse the elements of a non-empty JSON array, up to and including the
closing bracket. -/
def parseElems : Nat → List Char → Option (List Json × List Char)
  | 0, _ => none
  | fuel + 1, cs =>
    match parseValue fuel cs with
    | none => none
    | some (v, r) =>
      match skipWs r with
      | ',' :: r2 => (parseElems fuel (skipWs r2)).map fun p => (v :: p.1, p.2)
      | ']' :: r2 => some ([v], r2)
      | _ => none

/-- Parse the fields of a non-empty JSON object, up to and including the
closing brace. -/
def parseFields : Nat → List Char → Option (List (List Char × Json) × List Char)
  | 0, _ => none
  | fuel + 1, cs =>
    match cs with
    | '"' :: cs1 =>
      match parseStringRest (cs1.length + 1) cs1 with
      | none => none
      | some (key, r) =>
        match skipWs r with
        | ':' :: r2 =>
          match parseValue fuel (skipWs r2) with
          | none => none
          | some (v, r3) =>
            match skipWs r3 with
            | ',' :: r4 => (parseFields fuel (skipWs r4)).map fun p => ((key, v) :: p.1, p.2)
            | '\x7d' :: r4 => some ([(key, v)], r4)
            | _ => none
        | _ => none
    | _ => none

end

/-- Model of `JSON.parse` applied to one line: parse a single value with
surrounding whitespace permitted; any other trailing input is an error. -/
def parseJson (l : List Char) : Option Json :=
  match parseValue (l.length + 1) (skipWs l) with
  | some (v, r) => if (skipWs r).isEmpty then some v else none
  | none => none

/-! ### Property access, truthiness, string coercion (JS semantics) -/

/-- Key lookup where the *last* binding wins, matching the object
`JSON.parse` builds when a key is duplicated. -/
def lookupLast : List (List Char × Json) → List Char → Option Json
  | [], _ => none
  | (k, v) :: rest, key =>
    match lookupLast rest key with
    | some r => some r
    | none => if k == key then some v else none

/-- Property access `j.key` on a non-null JS value: a field of an object,
`undefined` (`none`) otherwise. -/
def jsGetField (j : Json) (key : List Char) : Option Json :=
  match j with
  | Json.obj fields => lookupLast fields key
  | _ => none

/-- Decimal key corresponding to a numeric index (JS `obj[0]` reads
property `"0"`). -/
def natKey (i : Nat) : List Char := (Nat.repr i).data

/-- Index access `j[i]` on a non-null JS value: an array element, a
one-character string for string indexing, the decimal-named property of
an object, `undefined` otherwise. -/
def jsGetIndex (j : Json) (i : Nat) : Option Json :=
  match j with
  | Json.arr es => es.get? i
  | Json.str s => (s.get? i).map fun c => Json.str [c]
  | Json.obj fields => lookupLast fields (natKey i)
  | _ => none

/-- One step of an optional chain `v?.step`: `undefined` and `null`
short-circuit to `undefined`, anything else is accessed. -/
def optChain (v : Option Json) (f : Json → Option Json) : Option Json :=
  match v with
  | none => none
  | some Json.null => none
  | some j => f j

def candidatesKey : List Char := "candidates".data
def contentKey : List Char := "content".data
def partsKey : List Char := "parts".data
def textKey : List Char := "text".data

/-- `data.candidates?.[0]?.content?.parts?.[0]?.text`.  The outer `none`
models the `TypeError` thrown by the unguarded access `data.candidates`
when `data` is `null` (caught by the per-line `catch`); `some none` is
`undefined`. -/
def extractTextPath (data : Json) : Option (Option Json) :=
  match data with
  | Json.null => none
  | _ =>
    some (optChain (optChain (optChain (optChain (optChain
      (jsGetField data candidatesKey) (fun j => jsGetIndex j 0))
      (fun j => jsGetField j contentKey))
      (fun j => jsGetField j partsKey))
      (fun j => jsGetIndex j 0))
      (fun j => jsGetField j textKey))

/-- Truthiness of a number lexeme: zero iff every mantissa digit is `0`
(the exponent cannot make a nonzero mantissa zero; double underflow is
not modelled and is unreached by every claim). -/
def numLexTruthy (lexeme : List Char) : Bool :=
  (lexeme.takeWhile fun c => c != 'e' && c != 'E').any fun c => c.isDigit && c != '0'

/-- JS truthiness of a parsed JSON value. -/
def jsTruthy : Json → Bool
  | Json.null => false
  | Json.bool b => b
  | Json.num lexeme => numLexTruthy lexeme
  | Json.str s => !s.isEmpty
  | Json.arr _ => true
  | Json.obj _ => true

def nullText : List Char := "null".data
def trueText : List Char := "true".data
def falseText : List Char := "false".data
def objectText : List Char := "[object Object]".data

/-- JS `ToString` coercion applied by `TextEncoder.encode` to a parsed
JSON value.  Strings are the identity — the only case any claim reaches;
numbers are approximated by their source lexeme and arrays by the object
form (see the header note). -/
def jsToString : Json → List Char
  | Json.null => nullText
  | Json.bool true => trueText
  | Json.bool false => falseText
  | Json.num lexeme => lexeme
  | Json.str s => s
  | Json.arr _ => objectText
  | Json.obj _ => objectText

/-! ### Per-line processing of the upstream protocol adapter -/

/-- The whitespace set of `String.prototype.trim` (WhiteSpace and
LineTerminator code points). -/
def jsWhitespace (c : Char) : Bool :=
  let n := c.toNat
  n = 32 || n = 9 || n = 10 || n = 11 || n = 12 || n = 13 || n = 160 ||
  n = 0x1680 || n = 0x2000 || n = 0x2001 || n = 0x2002 || n = 0x2003 ||
  n = 0x2004 || n = 0x2005 || n = 0x2006 || n = 0x2007 || n = 0x2008 ||
  n = 0x2009 || n = 0x200a || n = 0x2028 || n = 0x2029 || n = 0x202f ||
  n = 0x205f || n = 0x3000 || n = 0xfeff

/-- What one complete line contributes to the output stream:
`line.trim() === ''` skips the line; a `JSON.parse` failure or a
`TypeError` during extraction is caught and skips the line; a falsy
extracted value is skipped; a truthy one is enqueued after `ToString`
coercion by `TextEncoder.encode`. -/
def lineEmit (line : List Char) : Option (List Char) :=
  if line.all jsWhitespace then none
  else
    match parseJson line with
    | none => none
    | some data =>
      match extractTextPath data with
      | none => none
      | some none => none
      | some (some t) => if jsTruthy t then some (jsToString t) else none

/-- The parsed text value a line carries at the expected path, if any:
`JSON.parse` composed with the `candidates?...text` extraction. -/
def lineTextValue (l : List Char) : Option Json :=
  match parseJson l with
  | none => none
  | some d =>
    match extractTextPath d with
    | some (some j) => some j
    | _ => none

/-! ### Chunk pacer (`streamFallbackResponse`) -/

/-- The chunks enqueued by the pacing loop of `streamFallbackResponse`:
`words = text.split(' ')`, then chunk `i` is `words[i]` for `i = 0` and
`' ' + words[i]` afterwards.  `List.splitOn` has exactly the semantics of
JS `split` with a one-character separator (empty pieces kept, `[""]` on
empty input). -/
def pacerChunks (text : List Char) : List (List Char) :=
  match text.splitOn ' ' with
  | [] => []
  | w :: ws => w :: ws.map fun w2 => ' ' :: w2

/-! ### Fallback content (`generateFallbackResponse`) -/

def webKw : List Char := "web".data
def boneKw : List Char := "bone".data
def osteoKw : List Char := "osteo".data
def muscleKw : List Char := "muscle".data
def atrophyKw : List Char := "atrophy".data
def radiationKw : List Char := "radiation".data
def cosmicKw : List Char := "cosmic".data
def plantKw : List Char := "plant".data
def cropKw : List Char := "crop".data
def growKw : List Char := "grow".data
def immuneKw : List Char := "immune".data
def infectionKw : List Char := "infection".data
def heartKw : List Char := "heart".data
def cardiovascularKw : List Char := "cardiovascular".data
def bloodKw : List Char := "blood".data

/-- JS `String.prototype.includes`: substring containment. -/
def jsIncludes : List Char → List Char → Bool
  | [], pat => pat.isEmpty
  | s@(_ :: rest), pat => pat.isPrefixOf s || jsIncludes rest pat

/-- The part of the web-search notice before the verbatim echo of the
message. -/
def webNoticePre : List Char := "**Web Search Results**\n\nI apologize, but I don\x27t have access to live web search capabilities at the moment. However, I can provide information based on NASA\x27s space biology research database.\n\nFor the most current information about \"".data

/-- The part of the web-search notice after the verbatim echo of the
message. -/
def webNoticeSuffix : List Char := "\", I recommend:\n• Visiting NASA\x27s official website (nasa.gov)\n• Checking the NASA Life Sciences Data Archive\n• Exploring recent publications on NASA Technical Reports Server\n\nWould you like me to answer your question using the NASA space biology research database instead?".data

def boneLossText : List Char := "**Bone Loss in Microgravity**\n\nResearch shows astronauts lose 1-2% of bone mass per month in space, primarily in weight-bearing bones.\n\n**Key Findings:**\n• Reduced mechanical loading leads to decreased bone formation\n• Increased bone resorption through osteoclast activity\n• Exercise countermeasures can mitigate but not eliminate bone loss\n• Recovery after return to Earth takes months to years\n\n**Current Research Focus:**\n• Pharmacological interventions (bisphosphonates)\n• Optimized exercise protocols\n• Nutritional supplementation strategies\n\n*Source: Multiple NASA Life Sciences publications*".data

def muscleText : List Char := "**Muscle Atrophy in Space**\n\nAstronauts can lose 20-40% of muscle mass during long-duration missions, particularly in antigravity muscles.\n\n**Research Insights:**\n• Reduced protein synthesis and increased degradation\n• Type I (slow-twitch) fibers more affected than Type II\n• Exercise countermeasures essential for maintaining function\n• Changes occur within days of entering microgravity\n\n**Countermeasures:**\n• Resistance training (2+ hours daily)\n• High-intensity interval training\n• Proper nutrition (adequate protein intake)\n\n*Based on ISS research data*".data

def radiationText : List Char := "**Radiation Exposure in Space**\n\nSpace radiation poses significant health risks, including increased cancer risk and potential CNS effects.\n\n**Key Concerns:**\n• Galactic cosmic rays (GCR) - continuous low-dose exposure\n• Solar particle events (SPE) - acute high-dose exposure\n• Secondary radiation from spacecraft shielding\n• DNA damage and increased mutation rates\n\n**Protection Strategies:**\n• Optimized spacecraft shielding materials\n• Mission timing to avoid solar maximum\n• Pharmaceutical radioprotectors under investigation\n• Real-time monitoring systems\n\n*Ongoing research priority for Mars missions*".data

def plantText : List Char := "**Plant Growth in Microgravity**\n\nNASA has conducted extensive research on growing plants in space for food production and life support.\n\n**Research Findings:**\n• Plants can complete full life cycles in microgravity\n• Root growth shows altered gravitropism\n• Gas exchange and water delivery require special systems\n• Light quality affects growth rates and nutrition\n\n**Applications:**\n• Fresh food production for long missions\n• Oxygen generation and CO2 removal\n• Psychological benefits for crew\n• Potential for Mars/lunar agriculture\n\n**Current Projects:**\n• Veggie plant growth system\n• Advanced Plant Habitat\n• Testing various crop species\n\n*Essential for sustainable deep space exploration*".data

def immuneText : List Char := "**Immune System Changes in Microgravity**\n\nSpaceflight significantly impacts immune function, increasing infection risk and viral reactivation.\n\n**Key Findings:**\n• Altered T-cell distribution and function\n• Decreased natural killer cell activity\n• Increased stress hormones affecting immunity\n• Dormant viruses (like HSV) can reactivate\n• Wound healing may be impaired\n\n**Risk Factors:**\n• Confined environment with limited medical care\n• Stress from mission demands\n• Radiation exposure\n• Altered circadian rhythms\n\n**Research Directions:**\n• Nutritional interventions\n• Exercise as immune booster\n• Pharmaceutical countermeasures\n• Real-time immune monitoring\n\n*Critical concern for Mars missions*".data

def cardioText : List Char := "**Cardiovascular Adaptations in Space**\n\nThe cardiovascular system undergoes significant changes in microgravity due to fluid redistribution.\n\n**Major Effects:**\n• Cephalad fluid shift (fluid moves to upper body)\n• Cardiac atrophy and decreased stroke volume\n• Reduced orthostatic tolerance upon return\n• Changes in blood vessel structure\n• Altered blood pressure regulation\n\n**Countermeasures:**\n• Lower body negative pressure (LBNP) training\n• Aerobic exercise protocols\n• Fluid loading before re-entry\n• Compression garments\n\n**Long-term Concerns:**\n• Risk of arrhythmias\n• Reduced exercise capacity\n• Post-flight orthostatic intolerance\n\n*Extensive ISS cardiovascular research ongoing*".data

def defaultText : List Char := "**BIOSPACE AI - Space Biology Research Assistant**\n\nI specialize in NASA space biology research topics including:\n\n**Human Health in Space:**\n• Bone density loss and countermeasures\n• Muscle atrophy and exercise protocols\n• Cardiovascular system adaptations\n• Immune system dysregulation\n• Radiation exposure effects\n\n**Life Sciences:**\n• Plant growth and food production in space\n• Microbial behavior in microgravity\n• Cellular and molecular changes\n• Gene expression alterations\n\n**Mission Support:**\n• Countermeasure development\n• Risk assessment for long-duration missions\n• Life support system design\n\n*Please ask me a specific question about any of these topics, and I\x27ll provide detailed information based on NASA\x27s research.*".data

/-- `searchType === 'web'`: strict equality against the string literal. -/
def isWebSearchType : Option Json → Bool
  | some (Json.str s) => s == webKw
  | _ => false

/-- `generateFallbackResponse(message, searchType)`: keyword-priority
selection over the lower-cased message (`Char.toLower` models
`toLowerCase` on the ASCII letters every trigger keyword uses). -/
def generateFallbackResponse (message : List Char) (searchType : Option Json) : List Char :=
  let lowerMessage := message.map Char.toLower
  if isWebSearchType searchType then
    webNoticePre ++ message ++ webNoticeSuffix
  else if jsIncludes lowerMessage boneKw || jsIncludes lowerMessage osteoKw then
    boneLossText
  else if jsIncludes lowerMessage muscleKw || jsIncludes lowerMessage atrophyKw then
    muscleText
  else if jsIncludes lowerMessage radiationKw || jsIncludes lowerMessage cosmicKw then
    radiationText
  else if jsIncludes lowerMessage plantKw || jsIncludes lowerMessage cropKw || jsIncludes lowerMessage growKw then
    plantText
  else if jsIncludes lowerMessage immuneKw || jsIncludes lowerMessage infectionKw then
    immuneText
  else if jsIncludes lowerMessage heartKw || jsIncludes lowerMessage cardiovascularKw || jsIncludes lowerMessage bloodKw then
    cardioText
  else
    defaultText

/-! ### The relay endpoint (`POST`) with no credential configured -/

/-- The observable responses of the route handler: the 400 validation
response with its JSON payload, a 200 streamed body given by its chunk
sequence, and the plain-text last-resort apology of the outer catch. -/
inductive RelayResponse where
  | badRequest (payload : List Char) : RelayResponse
  | stream (chunks : List (List Char)) : RelayResponse
  | apology (body : List Char) : RelayResponse
deriving DecidableEq

/-- `JSON.stringify(error: 'Invalid message format')` as sent with
status 400. -/
def invalidMessagePayload : List Char := "\x7b\"error\":\"Invalid message format\"\x7d".data

/-- Body of the last-resort plain-text response of the outer catch. -/
def apologyText : List Char := "Sorry, I encountered an error. Please try again.".data

def messageKey : List Char := "message".data
def searchTypeKey : List Char := "searchType".data

/-- `streamFallbackResponse(message, searchType)`: a 200 response whose
body is the paced chunking of the selected fallback text. -/
def streamFallbackResponse (message : List Char) (searchType : Option Json) : RelayResponse :=
  RelayResponse.stream (pacerChunks (generateFallbackResponse message searchType))

/-- The `POST` handler with no `GEMINI_API_KEY` configured, as a function
of the parsed request body (`none` = `request.json()` rejected).  A body
that fails to parse, or a `null` body (destructuring `null` throws),
lands in the outer catch, whose second `request.json()` on the consumed
body throws again, producing the plain apology.  Otherwise the
destructured `message` is validated by
`!message || typeof message !== 'string'` — for a string, falsy means
empty — and a valid request goes straight to the fallback stream. -/
def POST_noApiKey (body : Option Json) : RelayResponse :=
  match body with
  | none => RelayResponse.apology apologyText
  | some Json.null => RelayResponse.apology apologyText
  | some b =>
    match jsGetField b messageKey with
    | some (Json.str s) =>
      if s = [] then RelayResponse.badRequest invalidMessagePayload
      else streamFallbackResponse s (jsGetField b searchTypeKey)
    | _ => RelayResponse.badRequest invalidMessagePayload

/-- Chunks of the streamed body of a response (empty for the
non-streaming responses). -/
def responseStreamChunks : RelayResponse → List (List Char)
  | RelayResponse.stream cs => cs
  | _ => []

/-! ### UTF-8 (model of `TextEncoder` and of the streaming `TextDecoder`) -/

/-- UTF-8 encoding of one scalar value (`TextEncoder.encode`). -/
def utf8EncodeChar (c : Char) : List Nat :=
  let v := c.toNat
  if v ≤ 0x7f then [v]
  else if v ≤ 0x7ff then [0xc0 + v / 64, 0x80 + v % 64]
  else if v ≤ 0xffff then [0xe0 + v / 4096, 0x80 + v / 64 % 64, 0x80 + v % 64]
  else [0xf0 + v / 262144, 0x80 + v / 4096 % 64, 0x80 + v / 64 % 64, 0x80 + v % 64]

/-- UTF-8 encoding of a string. -/
def utf8Encode (cs : List Char) : List Nat := (cs.map utf8EncodeChar).flatten

/-- State of the WHATWG streaming UTF-8 decoder backing
`new TextDecoder().decode(value, stream: true)`. -/
structure DecState where
  codepoint : Nat
  needed : Nat
  seen : Nat
  lower : Nat
  upper : Nat
deriving DecidableEq

/-- Initial (and between-characters) decoder state. -/
def decInit : DecState := ⟨0, 0, 0, 0x80, 0xbf⟩

/-- Decoder transition on a byte arriving with no character in progress
(WHATWG UTF-8 decoder, replacement error mode). -/
def decStart (b : Nat) : DecState × List Char :=
  if b ≤ 0x7f then (decInit, [Char.ofNat b])
  else if 0xc2 ≤ b ∧ b ≤ 0xdf then
    (⟨b % 32, 1, 0, 0x80, 0xbf⟩, [])
  else if 0xe0 ≤ b ∧ b ≤ 0xef then
    (⟨b % 16, 2, 0, if b = 0xe0 then 0xa0 else 0x80, if b = 0xed then 0x9f else 0xbf⟩, [])
  else if 0xf0 ≤ b ∧ b ≤ 0xf4 then
    (⟨b % 8, 3, 0, if b = 0xf0 then 0x90 else 0x80, if b = 0xf4 then 0x8f else 0xbf⟩, [])
  else (decInit, [replacementChar])

/-- Decoder transition on one byte.  A continuation byte outside the
current boundaries emits U+FFFD and reprocesses the byte from the
initial state (the WHATWG "prepend byte to stream" step). -/
def decByte (st : DecState) (b : Nat) : DecState × List Char :=
  if st.needed = 0 then decStart b
  else if st.lower ≤ b ∧ b ≤ st.upper then
    let cp := st.codepoint * 64 + b % 64
    if st.seen + 1 = st.needed then (decInit, [Char.ofNat cp])
    else (⟨cp, st.needed, st.seen + 1, 0x80, 0xbf⟩, [])
  else
    let r := decStart b
    (r.1, replacementChar :: r.2)

/-- Run the decoder over a byte sequence, returning the final state and
the scalar values produced. -/
def decRun (d : DecState) : List Nat → DecState × List Char
  | [] => (d, [])
  | b :: bs =>
    let r := decByte d b
    let r2 := decRun r.1 bs
    (r2.1, r.2 ++ r2.2)

/-! ### The adapter loop of `POST` (lines 64-96 of the route) -/

/-- Per-read state of the adapter: the decoder state held by the
`TextDecoder`, the carry-over text buffer, and the texts enqueued so
far. -/
structure AState where
  dec : DecState
  lineBuf : List Char
  out : List (List Char)

/-- `buffer += decoded; lines = buffer.split('\n'); buffer = lines.pop() || '';`
then each complete line contributes `lineEmit`.  `List.splitOn` is the
JS `split` on a one-character separator. -/
def processChars (lineBuf : List Char) (out : List (List Char)) (cs : List Char) :
    List Char × List (List Char) :=
  let parts := (lineBuf ++ cs).splitOn newlineChar
  (parts.getLast?.getD [], out ++ parts.dropLast.filterMap lineEmit)

/-- Process the bytes delivered by one `reader.read()`. -/
def feedRead (s : AState) (bytes : List Nat) : AState :=
  let d := decRun s.dec bytes
  let p := processChars s.lineBuf s.out d.2
  ⟨d.1, p.1, p.2⟩

/-- Adapter state at stream start. -/
def adapterInit : AState := ⟨decInit, [], []⟩

/-- Fold the adapter over the successive read results. -/
def runReads (s : AState) : List (List Nat) → AState
  | [] => s
  | r :: rs => runReads (feedRead s r) rs

/-- How the adapter's output stream terminates: `controller.close()` on
`done`, `controller.error(e)` when a read rejects. -/
inductive Outcome where
  | closed (chunks : List (List Char)) : Outcome
  | errored (chunks : List (List Char)) : Outcome
deriving DecidableEq

/-- The upstream protocol adapter: consume the reads in order; if the
source then reports `done` the output stream is closed, and if the next
read instead rejects, the `catch` signals `controller.error` (the carry
buffer is dropped either way, never flushed). -/
def adapter (reads : List (List Nat)) (cleanEnd : Bool) : Outcome :=
  let s := runReads adapterInit reads
  if cleanEnd then Outcome.closed s.out else Outcome.errored s.out

/-- Chunks carried by an outcome. -/
def outcomeChunks : Outcome → List (List Char)
  | Outcome.closed cs => cs
  | Outcome.errored cs => cs

/-- Byte concatenation of an output stream (each enqueued text is sent
through `TextEncoder.encode`). -/
def outcomeBytes (o : Outcome) : List Nat :=
  ((outcomeChunks o).map utf8Encode).flatten

/-- A sequence of newline-terminated records as one character stream. -/
def mkStream (lines : List (List Char)) : List Char :=
  (lines.map fun l => l ++ [newlineChar]).flatten

/-- The adapter fed one single read holding the bytes of the given fully
terminated lines, ending cleanly. -/
def runLines (lines : List (List Char)) : Outcome :=
  adapter [utf8Encode (mkStream lines)] true

/-! ### Concrete inputs used to instantiate the theorems -/

def whatAboutBoneLoss : List Char := "What about bone loss?".data
def ragText : List Char := "rag".data
def boneLossIntro : List Char := "**Bone Loss in Microgravity**".data
def w1Line1 : List Char := "\x7b\"candidates\":[\x7b\"content\":\x7b\"parts\":[\x7b\"text\":\"H\u00e9llo \"\x7d]\x7d\x7d]\x7d".data
def w1Line2 : List Char := "\x7b\"candidates\":[\x7b\"content\":\x7b\"parts\":[\x7b\"text\":\"world\"\x7d]\x7d\x7d]\x7d".data
def w1Frag1 : List Char := "H\u00e9llo ".data
def w1Frag2 : List Char := "world".data
def w1Bytes : List Nat := utf8Encode (mkStream [w1Line1, w1Line2])
def w3BadLine : List Char := "not json".data
def w4Message : List Char := "bone muscle radiation plant immune heart blood".data
def w6Message : List Char := "quantum".data
def w5Body : Json := Json.obj [(messageKey, Json.str whatAboutBoneLoss), (searchTypeKey, Json.str ragText)]
def w10Body : Json := Json.obj [(messageKey, Json.str [])]

/-- One character of buffering: a newline completes the buffered line,
any other character extends it.  (`processChars` is proved equal to a fold
of this step; the equivalence is what makes the adapter independent of
read boundaries.) -/
def lineStep (acc : List Char × List (List Char)) (c : Char) : List Char × List (List Char) :=
  if c = newlineChar then ([], acc.2 ++ (lineEmit acc.1).toList)
  else (acc.1 ++ [c], acc.2)

/-! ### Lemmas about `List.splitOn` (the JS `split` model) -/

theorem splitOn_ne_nil (c : Char) (l : List Char) : l.splitOn c ≠ [] :=
  List.splitOnP_ne_nil _ l

theorem mem_splitOnP_not (p : Char → Bool) :
    ∀ l : List Char, ∀ w ∈ l.splitOnP p, ∀ x ∈ w, p x = false := by
  intro l
  induction l with
  | nil =>
    intro w hw x hx
    simp only [List.splitOnP_nil, List.mem_singleton] at hw
    subst hw
    simp at hx
  | cons a l ih =>
    intro w hw x hx
    rw [List.splitOnP_cons] at hw
    by_cases hpa : p a
    · rw [if_pos hpa] at hw
      rcases List.mem_cons.mp hw with h | h
      · subst h; simp at hx
      · exact ih w h x hx
    · rw [if_neg hpa] at hw
      rcases hsp : l.splitOnP p with _ | ⟨h0, t⟩
      · exact absurd hsp (List.splitOnP_ne_nil _ l)
      · rw [hsp] at hw
        simp only [List.modifyHead, List.mem_cons] at hw
        rcases hw with h | h
        · subst h
          rcases List.mem_cons.mp hx with h | h
          · subst h; exact Bool.eq_false_iff.mpr hpa
          · exact ih h0 (hsp ▸ List.mem_cons_self h0 t) x h
        · exact ih w (hsp ▸ List.mem_cons_of_mem h0 h) x hx

theorem mem_splitOn_not_mem (c : Char) (l : List Char) :
    ∀ w ∈ l.splitOn c, c ∉ w := by
  intro w hw hc
  have := mem_splitOnP_not (· == c) l w hw c hc
  simp at this

/-! ### Lemmas about the chunk pacer -/

theorem intercalate_single_cons (c : Char) :
    ∀ (ws : List (List Char)) (w : List Char),
      [c].intercalate (w :: ws) = w ++ (ws.map fun w2 => c :: w2).flatten := by
  intro ws
  induction ws with
  | nil => intro w; simp [List.intercalate]
  | cons w2 ws ih =>
    intro w
    have h2 := ih w2
    simp only [List.intercalate] at h2 ⊢
    simp only [List.intersperse, List.flatten, List.map] at h2 ⊢
    rw [h2]
    simp

/-- Concatenating every chunk the pacer emits reproduces the text. -/
theorem pacerChunks_flatten (s : List Char) : (pacerChunks s).flatten = s := by
  unfold pacerChunks
  rcases hsp : s.splitOn ' ' with _ | ⟨w, ws⟩
  · exact absurd hsp (splitOn_ne_nil ' ' s)
  · have h1 : [' '].intercalate (w :: ws) = w ++ (ws.map fun w2 => ' ' :: w2).flatten :=
      intercalate_single_cons ' ' ws w
    have h2 : [' '].intercalate (s.splitOn ' ') = s := List.intercalate_splitOn s ' '
    rw [hsp] at h2
    simp only [List.flatten]
    rw [← h1, h2]

/-! ### The adapter's buffering, one character at a time

`buffer.split('\n')` followed by `buffer = lines.pop()` and per-line
processing is equivalent to a character-at-a-time machine; the
equivalence is what makes the adapter independent of read boundaries. -/

theorem not_beq_of_not_mem {c : Char} {l : List Char} (h : c ∉ l) :
    ∀ x ∈ l, ¬(x == c) := by
  intro x hx hbeq
  exact h (beq_iff_eq.mp hbeq ▸ hx)

theorem processChars_nil {lb : List Char} (out : List (List Char))
    (h : newlineChar ∉ lb) : processChars lb out [] = (lb, out) := by
  unfold processChars
  have hs : (lb ++ []).splitOn newlineChar = [lb] := by
    rw [List.append_nil]
    exact List.splitOnP_eq_single _ _ (not_beq_of_not_mem h)
  rw [hs]
  simp

theorem lineStep_newline (acc : List Char × List (List Char)) :
    lineStep acc newlineChar = ([], acc.2 ++ (lineEmit acc.1).toList) := by
  simp [lineStep]

theorem lineStep_other (acc : List Char × List (List Char)) {c : Char}
    (hc : c ≠ newlineChar) : lineStep acc c = (acc.1 ++ [c], acc.2) := by
  simp [lineStep, hc]

theorem splitOn_first {lb : List Char} (cs : List Char) (h : newlineChar ∉ lb) :
    (lb ++ newlineChar :: cs).splitOn newlineChar = lb :: cs.splitOn newlineChar := by
  simp only [List.splitOn]
  exact List.splitOnP_first _ _ (not_beq_of_not_mem h) newlineChar (by simp) cs

theorem processChars_eq_foldl {lb : List Char} {out : List (List Char)} (cs : List Char)
    (h : newlineChar ∉ lb) : processChars lb out cs = cs.foldl lineStep (lb, out) := by
  induction cs generalizing lb out with
  | nil => exact (processChars_nil out h).trans rfl
  | cons c cs ih =>
    by_cases hc : c = newlineChar
    · subst hc
      rcases hP : cs.splitOn newlineChar with _ | ⟨p0, ps⟩
      · exact absurd hP (splitOn_ne_nil _ cs)
      · have hL : processChars lb out (newlineChar :: cs)
            = ((p0 :: ps).getLast?.getD [],
               out ++ ((lineEmit lb).toList ++ (p0 :: ps).dropLast.filterMap lineEmit)) := by
          unfold processChars
          rw [splitOn_first cs h, hP]
          refine Prod.ext ?_ ?_
          · simp [List.getLast?]
          · simp only [List.dropLast_cons₂, List.filterMap_cons]
            cases hE : lineEmit lb <;> simp [List.append_assoc]
        have hR : (newlineChar :: cs).foldl lineStep (lb, out)
            = cs.foldl lineStep ([], out ++ (lineEmit lb).toList) := by
          rw [List.foldl_cons, lineStep_newline]
        rw [hL, hR, ← ih (List.not_mem_nil newlineChar)]
        unfold processChars
        rw [List.nil_append, hP]
        simp [List.append_assoc]
    · have hL : processChars lb out (c :: cs) = processChars (lb ++ [c]) out cs := by
        unfold processChars
        rw [show lb ++ c :: cs = (lb ++ [c]) ++ cs by simp]
      have hnn : newlineChar ∉ lb ++ [c] := by
        intro hm
        rcases List.mem_append.mp hm with hm | hm
        · exact h hm
        · simp at hm; exact hc hm.symm
      rw [hL, ih hnn, List.foldl_cons, lineStep_other _ hc]

theorem foldl_lineStep_fst {lb : List Char} {out : List (List Char)} (cs : List Char)
    (h : newlineChar ∉ lb) : newlineChar ∉ (cs.foldl lineStep (lb, out)).1 := by
  induction cs generalizing lb out with
  | nil => exact h
  | cons c cs ih =>
    by_cases hc : c = newlineChar
    · subst hc
      rw [List.foldl_cons, lineStep_newline]
      exact ih (List.not_mem_nil newlineChar)
    · rw [List.foldl_cons, lineStep_other _ hc]
      refine ih ?_
      intro hm
      rcases List.mem_append.mp hm with hm | hm
      · exact h hm
      · simp at hm; exact hc hm.symm

theorem foldl_lineStep_flat {lb : List Char} {out : List (List Char)} (l : List Char)
    (h : newlineChar ∉ l) : l.foldl lineStep (lb, out) = (lb ++ l, out) := by
  induction l generalizing lb with
  | nil => simp
  | cons c l ih =>
    have hc : c ≠ newlineChar := fun hc => h (hc ▸ List.mem_cons_self c l)
    rw [List.foldl_cons, lineStep_other _ hc]
    rw [ih fun hm => h (List.mem_cons_of_mem c hm)]
    simp

theorem foldl_lineStep_line {lb : List Char} {out : List (List Char)} (l : List Char)
    (h : newlineChar ∉ l) :
    (l ++ [newlineChar]).foldl lineStep (lb, out)
      = ([], out ++ (lineEmit (lb ++ l)).toList) := by
  rw [List.foldl_append, foldl_lineStep_flat l h, List.foldl_cons, lineStep_newline,
    List.foldl_nil]

theorem foldl_lineStep_mkStream (lines : List (List Char)) :
    ∀ out, (∀ l ∈ lines, newlineChar ∉ l) →
      (mkStream lines).foldl lineStep (([] : List Char), out)
        = ([], out ++ lines.filterMap lineEmit) := by
  induction lines with
  | nil => intro out _; simp [mkStream]
  | cons l ls ih =>
    intro out h
    have hstream : mkStream (l :: ls) = (l ++ [newlineChar]) ++ mkStream ls := by
      simp [mkStream]
    rw [hstream, List.foldl_append,
      foldl_lineStep_line l (h l (List.mem_cons_self l ls))]
    rw [ih _ fun x hx => h x (List.mem_cons_of_mem l hx)]
    rw [List.nil_append, List.filterMap_cons]
    cases hE : lineEmit l <;> simp [hE]

/-! ### Read boundaries do not matter -/

theorem decRun_append (d : DecState) (xs ys : List Nat) :
    decRun d (xs ++ ys)
      = ((decRun (decRun d xs).1 ys).1,
         (decRun d xs).2 ++ (decRun (decRun d xs).1 ys).2) := by
  induction xs generalizing d with
  | nil => simp [decRun]
  | cons b bs ih =>
    simp only [List.cons_append, decRun, List.append_eq]
    rw [ih (decByte d b).1]
    simp [List.append_assoc]

theorem feedRead_lineBuf (s : AState) (bytes : List Nat)
    (h : newlineChar ∉ s.lineBuf) : newlineChar ∉ (feedRead s bytes).lineBuf := by
  show newlineChar ∉ (processChars s.lineBuf s.out (decRun s.dec bytes).2).1
  rw [processChars_eq_foldl _ h]
  exact foldl_lineStep_fst _ h

theorem feedRead_append (s : AState) (a b : List Nat)
    (h : newlineChar ∉ s.lineBuf) :
    feedRead (feedRead s a) b = feedRead s (a ++ b) := by
  have hbuf2 : newlineChar ∉ ((decRun s.dec a).2.foldl lineStep (s.lineBuf, s.out)).1 :=
    foldl_lineStep_fst _ h
  have hP : processChars s.lineBuf s.out (decRun s.dec a).2
      = (decRun s.dec a).2.foldl lineStep (s.lineBuf, s.out) :=
    processChars_eq_foldl _ h
  have hQ : processChars s.lineBuf s.out ((decRun s.dec a).2 ++ (decRun (decRun s.dec a).1 b).2)
      = ((decRun s.dec a).2 ++ (decRun (decRun s.dec a).1 b).2).foldl lineStep
          (s.lineBuf, s.out) :=
    processChars_eq_foldl _ h
  show (⟨(decRun (feedRead s a).dec b).1,
        (processChars (feedRead s a).lineBuf (feedRead s a).out
          (decRun (feedRead s a).dec b).2).1,
        (processChars (feedRead s a).lineBuf (feedRead s a).out
          (decRun (feedRead s a).dec b).2).2⟩ : AState)
      = ⟨(decRun s.dec (a ++ b)).1,
         (processChars s.lineBuf s.out (decRun s.dec (a ++ b)).2).1,
         (processChars s.lineBuf s.out (decRun s.dec (a ++ b)).2).2⟩
  have hfst : (feedRead s a).dec = (decRun s.dec a).1 := rfl
  have hlb : (feedRead s a).lineBuf = (processChars s.lineBuf s.out (decRun s.dec a).2).1 := rfl
  have hout : (feedRead s a).out = (processChars s.lineBuf s.out (decRun s.dec a).2).2 := rfl
  rw [hfst, hlb, hout, decRun_append s.dec a b, hP, hQ, List.foldl_append,
    processChars_eq_foldl (decRun (decRun s.dec a).1 b).2 hbuf2]

theorem feedRead_nil (s : AState) (h : newlineChar ∉ s.lineBuf) :
    feedRead s [] = s := by
  show (⟨(decRun s.dec []).1,
        (processChars s.lineBuf s.out (decRun s.dec []).2).1,
        (processChars s.lineBuf s.out (decRun s.dec []).2).2⟩ : AState) = s
  have hd : decRun s.dec [] = (s.dec, []) := rfl
  rw [hd, processChars_nil s.out h]

theorem runReads_eq_flatten (reads : List (List Nat)) :
    ∀ s : AState, newlineChar ∉ s.lineBuf →
      runReads s reads = feedRead s reads.flatten := by
  induction reads with
  | nil =>
    intro s h
    simp only [runReads, List.flatten_nil]
    exact (feedRead_nil s h).symm
  | cons r rs ih =>
    intro s h
    simp only [runReads, List.flatten_cons]
    rw [ih (feedRead s r) (feedRead_lineBuf s r h)]
    exact feedRead_append s r rs.flatten h

/-! ### The streaming decoder undoes the encoder, byte by byte -/

theorem char_toNat_valid (c : Char) :
    c.toNat < 0xd800 ∨ (0xdfff < c.toNat ∧ c.toNat < 0x110000) := by
  rcases c.valid with h | ⟨h1, h2⟩
  · exact Or.inl (UInt32.toNat_lt_of_lt (by decide) h)
  · exact Or.inr ⟨UInt32.lt_toNat_of_lt (by decide) h1,
      UInt32.toNat_lt_of_lt (by decide) h2⟩

theorem decRun_nil (d : DecState) : decRun d [] = (d, []) := rfl

theorem decRun_cons (d : DecState) (b : Nat) (bs : List Nat) :
    decRun d (b :: bs)
      = ((decRun (decByte d b).1 bs).1, (decByte d b).2 ++ (decRun (decByte d b).1 bs).2) := rfl

theorem decRun_cons_emit {d : DecState} {b : Nat} {d2 : DecState} {cs : List Char}
    (bs : List Nat) (h : decByte d b = (d2, cs)) :
    decRun d (b :: bs) = ((decRun d2 bs).1, cs ++ (decRun d2 bs).2) := by
  rw [decRun_cons, h]

theorem decByte_needed0 {st : DecState} (h : st.needed = 0) (b : Nat) :
    decByte st b = decStart b := by
  unfold decByte
  rw [if_pos h]

theorem decStart_ascii {b : Nat} (h : b ≤ 0x7f) :
    decStart b = (decInit, [Char.ofNat b]) := by
  unfold decStart
  rw [if_pos h]

theorem decStart_two {b : Nat} (h1 : 0xc2 ≤ b) (h2 : b ≤ 0xdf) :
    decStart b = (⟨b % 32, 1, 0, 0x80, 0xbf⟩, []) := by
  unfold decStart
  rw [if_neg (by omega), if_pos ⟨h1, h2⟩]

theorem decStart_three {b : Nat} (h1 : 0xe0 ≤ b) (h2 : b ≤ 0xef) :
    decStart b = (⟨b % 16, 2, 0, if b = 0xe0 then 0xa0 else 0x80,
      if b = 0xed then 0x9f else 0xbf⟩, []) := by
  unfold decStart
  rw [if_neg (by omega), if_neg (by omega), if_pos ⟨h1, h2⟩]

theorem decStart_four {b : Nat} (h1 : 0xf0 ≤ b) (h2 : b ≤ 0xf4) :
    decStart b = (⟨b % 8, 3, 0, if b = 0xf0 then 0x90 else 0x80,
      if b = 0xf4 then 0x8f else 0xbf⟩, []) := by
  unfold decStart
  rw [if_neg (by omega), if_neg (by omega), if_neg (by omega), if_pos ⟨h1, h2⟩]

theorem decByte_cont_last {cp ne se lo up b : Nat} (hn : ¬ne = 0)
    (hl : lo ≤ b) (hu : b ≤ up) (hs : se + 1 = ne) :
    decByte ⟨cp, ne, se, lo, up⟩ b = (decInit, [Char.ofNat (cp * 64 + b % 64)]) := by
  simp only [decByte]
  rw [if_neg hn, if_pos ⟨hl, hu⟩]
  simp only [if_pos hs]

theorem decByte_cont_more {cp ne se lo up b : Nat} (hn : ¬ne = 0)
    (hl : lo ≤ b) (hu : b ≤ up) (hs : ¬se + 1 = ne) :
    decByte ⟨cp, ne, se, lo, up⟩ b = (⟨cp * 64 + b % 64, ne, se + 1, 0x80, 0xbf⟩, []) := by
  simp only [decByte]
  rw [if_neg hn, if_pos ⟨hl, hu⟩]
  simp only [if_neg hs]

theorem decRun_encodeChar (c : Char) :
    decRun decInit (utf8EncodeChar c) = (decInit, [c]) := by
  have hval := char_toNat_valid c
  by_cases h1 : c.toNat ≤ 0x7f
  · have hb : utf8EncodeChar c = [c.toNat] := by
      unfold utf8EncodeChar
      rw [if_pos h1]
    rw [hb, decRun_cons_emit [] ((decByte_needed0 rfl _).trans (decStart_ascii h1)),
      decRun_nil, Char.ofNat_toNat]
    rfl
  · by_cases h2 : c.toNat ≤ 0x7ff
    · have hb : utf8EncodeChar c = [0xc0 + c.toNat / 64, 0x80 + c.toNat % 64] := by
        unfold utf8EncodeChar
        rw [if_neg h1, if_pos h2]
      have s1 : decByte decInit (0xc0 + c.toNat / 64)
          = (⟨(0xc0 + c.toNat / 64) % 32, 1, 0, 0x80, 0xbf⟩, []) :=
        (decByte_needed0 rfl _).trans (decStart_two (by omega) (by omega))
      have s2 : decByte ⟨(0xc0 + c.toNat / 64) % 32, 1, 0, 0x80, 0xbf⟩ (0x80 + c.toNat % 64)
          = (decInit, [c]) := by
        rw [decByte_cont_last (by omega) (by omega) (by omega) (by omega)]
        have harith : (0xc0 + c.toNat / 64) % 32 * 64 + (0x80 + c.toNat % 64) % 64
            = c.toNat := by omega
        rw [harith, Char.ofNat_toNat]
      rw [hb, decRun_cons_emit _ s1, decRun_cons_emit _ s2, decRun_nil]
      rfl
    · by_cases h3 : c.toNat ≤ 0xffff
      · have hb : utf8EncodeChar c
            = [0xe0 + c.toNat / 4096, 0x80 + c.toNat / 64 % 64, 0x80 + c.toNat % 64] := by
          unfold utf8EncodeChar
          rw [if_neg h1, if_neg h2, if_pos h3]
        have hsur : c.toNat < 0xd800 ∨ 0xdfff < c.toNat := by
          rcases hval with h | ⟨h, _⟩
          · exact Or.inl h
          · exact Or.inr h
        have s1 : decByte decInit (0xe0 + c.toNat / 4096)
            = (⟨(0xe0 + c.toNat / 4096) % 16, 2, 0,
                if 0xe0 + c.toNat / 4096 = 0xe0 then 0xa0 else 0x80,
                if 0xe0 + c.toNat / 4096 = 0xed then 0x9f else 0xbf⟩, []) :=
          (decByte_needed0 rfl _).trans (decStart_three (by omega) (by omega))
        have hlow : (if 0xe0 + c.toNat / 4096 = 0xe0 then 0xa0 else 0x80)
            ≤ 0x80 + c.toNat / 64 % 64 := by
          split_ifs with h0 <;> omega
        have hup : 0x80 + c.toNat / 64 % 64
            ≤ (if 0xe0 + c.toNat / 4096 = 0xed then 0x9f else 0xbf) := by
          split_ifs with h0 <;> omega
        have s2 : decByte ⟨(0xe0 + c.toNat / 4096) % 16, 2, 0,
              if 0xe0 + c.toNat / 4096 = 0xe0 then 0xa0 else 0x80,
              if 0xe0 + c.toNat / 4096 = 0xed then 0x9f else 0xbf⟩
            (0x80 + c.toNat / 64 % 64)
            = (⟨(0xe0 + c.toNat / 4096) % 16 * 64 + (0x80 + c.toNat / 64 % 64) % 64,
                2, 1, 0x80, 0xbf⟩, []) :=
          decByte_cont_more (by omega) hlow hup (by omega)
        have s3 : decByte ⟨(0xe0 + c.toNat / 4096) % 16 * 64 + (0x80 + c.toNat / 64 % 64) % 64,
              2, 1, 0x80, 0xbf⟩ (0x80 + c.toNat % 64) = (decInit, [c]) := by
          rw [decByte_cont_last (by omega) (by omega) (by omega) (by omega)]
          have harith : ((0xe0 + c.toNat / 4096) % 16 * 64 + (0x80 + c.toNat / 64 % 64) % 64)
              * 64 + (0x80 + c.toNat % 64) % 64 = c.toNat := by omega
          rw [harith, Char.ofNat_toNat]
        rw [hb, decRun_cons_emit _ s1, decRun_cons_emit _ s2, decRun_cons_emit _ s3, decRun_nil]
        rfl
      · have h4 : c.toNat < 0x110000 := by
          rcases hval with h | ⟨_, h⟩
          · omega
          · exact h
        have hb : utf8EncodeChar c
            = [0xf0 + c.toNat / 262144, 0x80 + c.toNat / 4096 % 64,
               0x80 + c.toNat / 64 % 64, 0x80 + c.toNat % 64] := by
          unfold utf8EncodeChar
          rw [if_neg h1, if_neg h2, if_neg h3]
        have s1 : decByte decInit (0xf0 + c.toNat / 262144)
            = (⟨(0xf0 + c.toNat / 262144) % 8, 3, 0,
                if 0xf0 + c.toNat / 262144 = 0xf0 then 0x90 else 0x80,
                if 0xf0 + c.toNat / 262144 = 0xf4 then 0x8f else 0xbf⟩, []) :=
          (decByte_needed0 rfl _).trans (decStart_four (by omega) (by omega))
        have hlow : (if 0xf0 + c.toNat / 262144 = 0xf0 then 0x90 else 0x80)
            ≤ 0x80 + c.toNat / 4096 % 64 := by
          split_ifs with h0 <;> omega
        have hup : 0x80 + c.toNat / 4096 % 64
            ≤ (if 0xf0 + c.toNat / 262144 = 0xf4 then 0x8f else 0xbf) := by
          split_ifs with h0 <;> omega
        have s2 : decByte ⟨(0xf0 + c.toNat / 262144) % 8, 3, 0,
              if 0xf0 + c.toNat / 262144 = 0xf0 then 0x90 else 0x80,
              if 0xf0 + c.toNat / 262144 = 0xf4 then 0x8f else 0xbf⟩
            (0x80 + c.toNat / 4096 % 64)
            = (⟨(0xf0 + c.toNat / 262144) % 8 * 64 + (0x80 + c.toNat / 4096 % 64) % 64,
                3, 1, 0x80, 0xbf⟩, []) :=
          decByte_cont_more (by omega) hlow hup (by omega)
        have s3 : decByte ⟨(0xf0 + c.toNat / 262144) % 8 * 64 + (0x80 + c.toNat / 4096 % 64) % 64,
              3, 1, 0x80, 0xbf⟩ (0x80 + c.toNat / 64 % 64)
            = (⟨((0xf0 + c.toNat / 262144) % 8 * 64 + (0x80 + c.toNat / 4096 % 64) % 64) * 64
                  + (0x80 + c.toNat / 64 % 64) % 64,
                3, 2, 0x80, 0xbf⟩, []) :=
          decByte_cont_more (by omega) (by omega) (by omega) (by omega)
        have s4 : decByte ⟨((0xf0 + c.toNat / 262144) % 8 * 64 + (0x80 + c.toNat / 4096 % 64) % 64)
              * 64 + (0x80 + c.toNat / 64 % 64) % 64, 3, 2, 0x80, 0xbf⟩
            (0x80 + c.toNat % 64) = (decInit, [c]) := by
          rw [decByte_cont_last (by omega) (by omega) (by omega) (by omega)]
          have harith : (((0xf0 + c.toNat / 262144) % 8 * 64 + (0x80 + c.toNat / 4096 % 64) % 64)
              * 64 + (0x80 + c.toNat / 64 % 64) % 64) * 64 + (0x80 + c.toNat % 64) % 64
              = c.toNat := by omega
          rw [harith, Char.ofNat_toNat]
        rw [hb, decRun_cons_emit _ s1, decRun_cons_emit _ s2, decRun_cons_emit _ s3,
          decRun_cons_emit _ s4, decRun_nil]
        rfl

theorem decRun_encode (cs : List Char) :
    decRun decInit (utf8Encode cs) = (decInit, cs) := by
  induction cs with
  | nil => rfl
  | cons c cs ih =>
    have henc : utf8Encode (c :: cs) = utf8EncodeChar c ++ utf8Encode cs := by
      simp [utf8Encode]
    rw [henc, decRun_append, decRun_encodeChar c, ih]
    rfl

theorem utf8Encode_append (a b : List Char) :
    utf8Encode (a ++ b) = utf8Encode a ++ utf8Encode b := by
  simp [utf8Encode]

theorem utf8Encode_flatten (ls : List (List Char)) :
    (ls.map utf8Encode).flatten = utf8Encode ls.flatten := by
  induction ls with
  | nil => rfl
  | cons l ls ih => simp [utf8Encode_append, ih]

/-! ### The adapter on a fully decoded stream -/

theorem feedRead_stream (lines : List (List Char)) (rest : List Char)
    (hlines : ∀ l ∈ lines, newlineChar ∉ l) (hrest : newlineChar ∉ rest) :
    feedRead adapterInit (utf8Encode (mkStream lines ++ rest))
      = ⟨decInit, rest, lines.filterMap lineEmit⟩ := by
  show (⟨(decRun decInit (utf8Encode (mkStream lines ++ rest))).1,
        (processChars [] [] (decRun decInit (utf8Encode (mkStream lines ++ rest))).2).1,
        (processChars [] [] (decRun decInit (utf8Encode (mkStream lines ++ rest))).2).2⟩ : AState)
      = ⟨decInit, rest, lines.filterMap lineEmit⟩
  rw [decRun_encode (mkStream lines ++ rest)]
  rw [processChars_eq_foldl _ (List.not_mem_nil newlineChar), List.foldl_append,
    foldl_lineStep_mkStream lines [] hlines, foldl_lineStep_flat rest hrest,
    List.nil_append]
  rfl

theorem runReads_stream (reads : List (List Nat)) (lines : List (List Char))
    (rest : List Char)
    (hjoin : reads.flatten = utf8Encode (mkStream lines ++ rest))
    (hlines : ∀ l ∈ lines, newlineChar ∉ l) (hrest : newlineChar ∉ rest) :
    runReads adapterInit reads = ⟨decInit, rest, lines.filterMap lineEmit⟩ := by
  rw [runReads_eq_flatten reads adapterInit (List.not_mem_nil newlineChar), hjoin,
    feedRead_stream lines rest hlines hrest]

/-! ### Whitespace-only input never parses, and per-line emission -/

theorem parseValue_nil : ∀ f, parseValue f [] = none
  | 0 => rfl
  | _ + 1 => rfl

theorem parseValue_white {c : Char} (hw : jsWhitespace c = true) (hj : jsonWs c = false) :
    ∀ f cs, parseValue f (c :: cs) = none := by
  intro f cs
  simp only [jsWhitespace, jsonWs, Bool.or_eq_true, decide_eq_true_eq,
    Bool.or_eq_false_iff, decide_eq_false_iff_not, or_assoc] at hw hj
  rcases hw with h|h|h|h|h|h|h|h|h|h|h|h|h|h|h|h|h|h|h|h|h|h|h|h|h <;>
    first
      | omega
      | (have hc : c = Char.ofNat c.toNat := (Char.ofNat_toNat c).symm
         rw [h] at hc
         rw [hc]
         cases f <;> rfl)

theorem parseValue_skipWs_white :
    ∀ l : List Char, l.all jsWhitespace = true → ∀ f, parseValue f (skipWs l) = none := by
  intro l
  induction l with
  | nil => intro _ f; exact parseValue_nil f
  | cons c cs ih =>
    intro h f
    rw [List.all_cons, Bool.and_eq_true] at h
    unfold skipWs
    by_cases hj : jsonWs c = true
    · rw [if_pos hj]
      exact ih h.2 f
    · rw [if_neg (by simp [hj])]
      exact parseValue_white h.1 (Bool.eq_false_iff.mpr hj) f cs

theorem parseJson_white {l : List Char} (h : l.all jsWhitespace = true) :
    parseJson l = none := by
  unfold parseJson
  rw [parseValue_skipWs_white l h (l.length + 1)]

theorem lineEmit_of_text {l t : List Char}
    (h : lineTextValue l = some (Json.str t)) (ht : t ≠ []) :
    lineEmit l = some t := by
  unfold lineTextValue at h
  rcases hp : parseJson l with _ | d
  · simp only [hp] at h
    exact Option.noConfusion h
  · simp only [hp] at h
    rcases he : extractTextPath d with _ | o
    · simp only [he] at h
      exact Option.noConfusion h
    · simp only [he] at h
      rcases o with _ | j
      · simp at h
      · have hj : j = Json.str t := by
          simpa using h
        subst hj
        have hnw : ¬l.all jsWhitespace = true := fun hw => by
          rw [parseJson_white hw] at hp
          exact Option.noConfusion hp
        have htruthy : jsTruthy (Json.str t) = true := by
          simp [jsTruthy, ht]
        unfold lineEmit
        rw [if_neg hnw]
        simp only [hp, he, htruthy, if_pos]
        simp [jsToString]

theorem lineEmit_of_bad {l : List Char}
    (h : parseJson l = none ∨ ∃ d, parseJson l = some d ∧
         (extractTextPath d = none ∨ extractTextPath d = some none)) :
    lineEmit l = none := by
  unfold lineEmit
  by_cases hw : l.all jsWhitespace = true
  · rw [if_pos hw]
  · rw [if_neg hw]
    rcases h with h | ⟨d, hd, he⟩
    · simp only [h]
    · rcases he with he | he <;> simp only [hd, he]

theorem filterMap_lineEmit_of_forall :
    ∀ {lines frags : List (List Char)},
      List.Forall₂ (fun l f => lineTextValue l = some (Json.str f)) lines frags →
      (∀ f ∈ frags, f ≠ []) → lines.filterMap lineEmit = frags := by
  intro lines frags h
  induction h with
  | nil => intro _; rfl
  | @cons l f ls fs hlf _ ih =>
    intro hne
    rw [List.filterMap_cons, lineEmit_of_text hlf (hne f (List.mem_cons_self f fs))]
    rw [ih fun g hg => hne g (List.mem_cons_of_mem f hg)]

theorem forall₂_left_of_and {P : List Char → Prop} {R : List Char → List Char → Prop} :
    ∀ {lines frags : List (List Char)},
      List.Forall₂ (fun l f => P l ∧ R l f) lines frags → ∀ l ∈ lines, P l := by
  intro lines frags h
  induction h with
  | nil => intro l hl; exact absurd hl (List.not_mem_nil l)
  | @cons a b ls fs hab _ ih =>
    intro l hl
    rcases List.mem_cons.mp hl with h | h
    · exact h ▸ hab.1
    · exact ih l h

theorem runLines_closed (ls : List (List Char)) (h : ∀ l ∈ ls, newlineChar ∉ l) :
    runLines ls = Outcome.closed (ls.filterMap lineEmit) := by
  unfold runLines adapter
  rw [runReads_stream [utf8Encode (mkStream ls)] ls []
    (by simp) h (List.not_mem_nil newlineChar)]
  rfl

/-- C1: fed the bytes of `N` newline-terminated JSON records, each carrying
a distinct non-empty text fragment at `candidates[0].content.parts[0].text`,
followed by end-of-stream, the adapter closes with exactly those fragments
as chunks, and the byte concatenation of its output is the UTF-8 encoding
of the fragments concatenated in order — for every byte-level split of the
input into reads (including splits mid-line and mid multi-byte character). -/
theorem C1_adapter_concatenates_fragments (reads : List (List Nat))
    (lines frags : List (List Char))
    (hjoin : reads.flatten = utf8Encode (mkStream lines))
    (hrec : List.Forall₂ (fun l f => newlineChar ∉ l
              ∧ lineTextValue l = some (Json.str f)) lines frags)
    (hne : ∀ f ∈ frags, f ≠ []) (hnd : frags.Nodup) :
    adapter reads true = Outcome.closed frags
      ∧ outcomeBytes (adapter reads true) = utf8Encode frags.flatten := by
  have hlines : ∀ l ∈ lines, newlineChar ∉ l := forall₂_left_of_and hrec
  have hjoin2 : reads.flatten = utf8Encode (mkStream lines ++ []) := by
    rw [List.append_nil]; exact hjoin
  have hrun := runReads_stream reads lines [] hjoin2 hlines (List.not_mem_nil newlineChar)
  have hfm : lines.filterMap lineEmit = frags :=
    filterMap_lineEmit_of_forall (hrec.imp fun _ _ hx => hx.2) hne
  have hmain : adapter reads true = Outcome.closed frags := by
    unfold adapter
    rw [hrun]
    show Outcome.closed (lines.filterMap lineEmit) = Outcome.closed frags
    rw [hfm]
  refine ⟨hmain, ?_⟩
  rw [hmain]
  show ((frags.map utf8Encode)).flatten = utf8Encode frags.flatten
  exact utf8Encode_flatten frags

theorem C1_witness :
    adapter [w1Bytes.take 47, w1Bytes.drop 47] true = Outcome.closed [w1Frag1, w1Frag2] := by
  have h := C1_adapter_concatenates_fragments [w1Bytes.take 47, w1Bytes.drop 47]
    [w1Line1, w1Line2] [w1Frag1, w1Frag2]
    (by simp [w1Bytes])
    (List.Forall₂.cons ⟨by decide, by rfl⟩
      (List.Forall₂.cons ⟨by decide, by rfl⟩ List.Forall₂.nil))
    (by decide) (by decide)
  exact h.1

/-- C3: a complete line that is not valid JSON, or is valid JSON with no
text fragment at `candidates[0].content.parts[0].text`, contributes zero
bytes to the output, and the surrounding lines are processed exactly as if
the bad line were absent; the stream still closes normally. -/
theorem C3_bad_line_skipped (pre post : List (List Char)) (line : List Char)
    (hpre : ∀ l ∈ pre, newlineChar ∉ l) (hpost : ∀ l ∈ post, newlineChar ∉ l)
    (hline : newlineChar ∉ line)
    (hbad : parseJson line = none ∨ ∃ d, parseJson line = some d ∧
        (extractTextPath d = none ∨ extractTextPath d = some none)) :
    runLines (pre ++ line :: post) = runLines (pre ++ post)
      ∧ runLines (pre ++ line :: post)
          = Outcome.closed (pre.filterMap lineEmit ++ post.filterMap lineEmit) := by
  have hall : ∀ l ∈ pre ++ line :: post, newlineChar ∉ l := by
    intro l hl
    rcases List.mem_append.mp hl with h | h
    · exact hpre l h
    · rcases List.mem_cons.mp h with h | h
      · exact h ▸ hline
      · exact hpost l h
  have hall2 : ∀ l ∈ pre ++ post, newlineChar ∉ l := by
    intro l hl
    rcases List.mem_append.mp hl with h | h
    · exact hpre l h
    · exact hpost l h
  have h1 := runLines_closed (pre ++ line :: post) hall
  have h2 := runLines_closed (pre ++ post) hall2
  have hskip : (pre ++ line :: post).filterMap lineEmit
      = pre.filterMap lineEmit ++ post.filterMap lineEmit := by
    rw [List.filterMap_append, List.filterMap_cons, lineEmit_of_bad hbad]
  constructor
  · rw [h1, h2, hskip, List.filterMap_append]
  · rw [h1, hskip]

theorem C3_witness :
    runLines ([w1Line1] ++ w3BadLine :: [w1Line2]) = runLines ([w1Line1] ++ [w1Line2]) := by
  have h := C3_bad_line_skipped [w1Line1] [w1Line2] w3BadLine
    (by decide) (by decide) (by decide) (Or.inl (by rfl))
  exact h.1

/-- C8: on clean end-of-input the adapter closes the output stream with
exactly the chunks of the fully terminated lines; an incomplete trailing
line stays in the carry-over buffer and is discarded — it contributes
nothing to the output, whatever it contains. -/
theorem C8_trailing_line_discarded (reads : List (List Nat))
    (lines : List (List Char)) (rest : List Char)
    (hjoin : reads.flatten = utf8Encode (mkStream lines ++ rest))
    (hlines : ∀ l ∈ lines, newlineChar ∉ l) (hrest : newlineChar ∉ rest) :
    adapter reads true = Outcome.closed (lines.filterMap lineEmit)
      ∧ (runReads adapterInit reads).lineBuf = rest := by
  have hrun := runReads_stream reads lines rest hjoin hlines hrest
  constructor
  · unfold adapter
    rw [hrun]
    rfl
  · rw [hrun]

theorem C8_witness :
    adapter [utf8Encode (mkStream [w1Line1] ++ w1Line2)] true
      = Outcome.closed ([w1Line1].filterMap lineEmit) := by
  have h := C8_trailing_line_discarded [utf8Encode (mkStream [w1Line1] ++ w1Line2)]
    [w1Line1] w1Line2 (by simp) (by decide) (by decide)
  exact h.1

/-- C9: when a read from the upstream source rejects after the previous
reads, the adapter signals an error on the output stream carrying exactly
the chunks already emitted; it never closes the stream and there is no
fallback path once streaming has begun. -/
theorem C9_error_signals_not_closes (reads : List (List Nat)) :
    adapter reads false = Outcome.errored ((runReads adapterInit reads).out)
      ∧ ∀ cs, adapter reads false ≠ Outcome.closed cs := by
  constructor
  · rfl
  · intro cs h
    have : Outcome.errored ((runReads adapterInit reads).out) = Outcome.closed cs := h
    exact Outcome.noConfusion this

/-! ### The chunk pacer, the selector, and the validation path -/

theorem pacer_single (s : List Char) (hne : s ≠ []) (hns : ' ' ∉ s) :
    pacerChunks s = [s] := by
  unfold pacerChunks
  have hsp : s.splitOn ' ' = [s] := by
    simp only [List.splitOn]
    exact List.splitOnP_eq_single _ _ (not_beq_of_not_mem hns)
  rw [hsp]
  rfl

theorem pacer_later_chunk (s : List Char) (i : Nat) (hi : i < (pacerChunks s).length)
    (h0 : 0 < i) :
    ∃ w, (pacerChunks s).get ⟨i, hi⟩ = ' ' :: w ∧ ' ' ∉ w := by
  rcases hsp : s.splitOn ' ' with _ | ⟨w0, ws⟩
  · exact absurd hsp (splitOn_ne_nil ' ' s)
  · have hpc : pacerChunks s = w0 :: ws.map fun w2 => ' ' :: w2 := by
      unfold pacerChunks
      rw [hsp]
    rcases i with _ | j
    · exact absurd h0 (by omega)
    · have hj : j < ws.length := by
        have := hi
        rw [hpc] at this
        simpa using this
      refine ⟨ws.get ⟨j, hj⟩, ?_, ?_⟩
      · have : (pacerChunks s).get ⟨j + 1, hi⟩
            = (ws.map fun w2 => ' ' :: w2).get ⟨j, by simpa using hj⟩ := by
          simp [hpc]
        rw [this, List.get_map]
      · exact mem_splitOn_not_mem ' ' s (ws.get ⟨j, hj⟩)
          (hsp ▸ List.mem_cons_of_mem w0 (List.get_mem ws j hj))

/-- C2 (amended): concatenating every chunk the pacer emits reproduces the
input exactly, for every input; the empty string yields exactly one chunk,
which is empty (`''.split(' ')` is `[""]`, so the loop enqueues one empty
chunk — not zero chunks); a non-empty space-free string yields exactly one
chunk, the string itself, with no leading space; and every chunk after the
first is a single leading space followed by a space-free word. -/
theorem C2_pacer_roundtrip :
    (∀ s : List Char, (pacerChunks s).flatten = s)
      ∧ pacerChunks [] = [[]]
      ∧ (∀ s : List Char, s ≠ [] → ' ' ∉ s → pacerChunks s = [s])
      ∧ (∀ (s : List Char) (i : Nat) (hi : i < (pacerChunks s).length), 0 < i →
          ∃ w, (pacerChunks s).get ⟨i, hi⟩ = ' ' :: w ∧ ' ' ∉ w) :=
  ⟨pacerChunks_flatten, rfl, pacer_single, pacer_later_chunk⟩

/-- C2, counterexample to the claim as stated: on the empty string the
pacer emits one (empty) chunk, not zero chunks. -/
theorem C2_counterexample : (pacerChunks []).length ≠ 0 := by decide

theorem C2_witness :
    (pacerChunks ("bone loss".data)).flatten = "bone loss".data
      ∧ pacerChunks ("hi".data) = ["hi".data] :=
  ⟨C2_pacer_roundtrip.1 _, C2_pacer_roundtrip.2.2.1 _ (by decide) (by decide)⟩

theorem isWeb_false_of_ne {st : Option Json} (h : st ≠ some (Json.str webKw)) :
    isWebSearchType st = false := by
  rcases st with _ | j
  · rfl
  · cases j with
    | str s =>
      show (s == webKw) = false
      refine beq_eq_false_iff_ne.mpr fun hs => h ?_
      rw [hs]
    | null => rfl
    | bool b => rfl
    | num lexeme => rfl
    | arr elts => rfl
    | obj fields => rfl

/-- C4: any message whose lower-cased form contains `bone` or `osteo`,
sent with any `searchType` other than the string `web`, selects exactly
the bone-loss text — whatever other keyword groups the message also
matches, since the bone group is tested first. -/
theorem C4_bone_first (m : List Char) (st : Option Json)
    (hst : st ≠ some (Json.str webKw))
    (hkw : jsIncludes (m.map Char.toLower) boneKw = true
           ∨ jsIncludes (m.map Char.toLower) osteoKw = true) :
    generateFallbackResponse m st = boneLossText := by
  have hb : (jsIncludes (m.map Char.toLower) boneKw
      || jsIncludes (m.map Char.toLower) osteoKw) = true := by
    rcases hkw with h | h <;> simp [h]
  unfold generateFallbackResponse
  rw [isWeb_false_of_ne hst]
  simp only [Bool.false_eq_true, if_false, hb, if_true]

theorem C4_witness : generateFallbackResponse w4Message none = boneLossText :=
  C4_bone_first w4Message none (fun h => Option.noConfusion h) (Or.inl (by decide))

/-- C6: with `searchType = "web"` the selector returns the fixed
web-search-unavailable notice, which is the fixed prefix, the original
message echoed verbatim (unescaped), and the fixed suffix; in particular
the message is an infix of the returned text. -/
theorem C6_web_notice_echoes (m : List Char) (hm : m ≠ []) :
    generateFallbackResponse m (some (Json.str webKw))
        = webNoticePre ++ m ++ webNoticeSuffix
      ∧ m <:+: generateFallbackResponse m (some (Json.str webKw)) := by
  have hw : isWebSearchType (some (Json.str webKw)) = true := by
    show (webKw == webKw) = true
    simp
  have heq : generateFallbackResponse m (some (Json.str webKw))
      = webNoticePre ++ m ++ webNoticeSuffix := by
    unfold generateFallbackResponse
    rw [hw]
    simp
  exact ⟨heq, webNoticePre, webNoticeSuffix, by rw [heq]⟩

theorem C6_witness :
    generateFallbackResponse w6Message (some (Json.str webKw))
        = webNoticePre ++ w6Message ++ webNoticeSuffix
      ∧ w6Message <:+: generateFallbackResponse w6Message (some (Json.str webKw)) :=
  C6_web_notice_echoes w6Message (by decide)

set_option maxRecDepth 16384 in
/-- C5: with no credential configured, any request whose body carries a
non-empty string `message` is answered by exactly the Chunk Pacer applied
to the Fallback Content Selector on that message and the request's
`searchType` — no other processing; and on the concrete request
`message = "What about bone loss?"`, `searchType = "rag"`, the
concatenated stream text starts with `**Bone Loss in Microgravity**`. -/
theorem C5_no_key_is_fallback_composition (b : Json) (s : List Char)
    (hmsg : jsGetField b messageKey = some (Json.str s)) (hne : s ≠ []) :
    POST_noApiKey (some b)
        = RelayResponse.stream
            (pacerChunks (generateFallbackResponse s (jsGetField b searchTypeKey)))
      ∧ boneLossIntro.isPrefixOf
          ((pacerChunks (generateFallbackResponse whatAboutBoneLoss
              (some (Json.str ragText)))).flatten) = true := by
  constructor
  · cases b with
    | obj fields =>
      show (match jsGetField (Json.obj fields) messageKey with
        | some (Json.str s) =>
          if s = [] then RelayResponse.badRequest invalidMessagePayload
          else streamFallbackResponse s (jsGetField (Json.obj fields) searchTypeKey)
        | _ => RelayResponse.badRequest invalidMessagePayload) = _
      rw [hmsg]
      simp only [if_neg hne]
      rfl
    | null => exact absurd hmsg (by simp [jsGetField])
    | bool v => exact absurd hmsg (by simp [jsGetField])
    | num lexeme => exact absurd hmsg (by simp [jsGetField])
    | str s2 => exact absurd hmsg (by simp [jsGetField])
    | arr elts => exact absurd hmsg (by simp [jsGetField])
  · have hgen : generateFallbackResponse whatAboutBoneLoss (some (Json.str ragText))
        = boneLossText := by decide
    rw [hgen, pacerChunks_flatten]
    decide

set_option maxRecDepth 16384 in
theorem C5_witness :
    POST_noApiKey (some w5Body)
        = RelayResponse.stream
            (pacerChunks (generateFallbackResponse whatAboutBoneLoss
              (jsGetField w5Body searchTypeKey)))
      ∧ boneLossIntro.isPrefixOf
          ((pacerChunks (generateFallbackResponse whatAboutBoneLoss
              (some (Json.str ragText)))).flatten) = true :=
  C5_no_key_is_fallback_composition w5Body whatAboutBoneLoss (by rfl) (by decide)

/-- C7 (amended): for every parsed request body other than JSON `null`
whose `message` property is absent or not a string, the handler responds
400 with the JSON error payload and no stream chunk is produced; a `null`
body instead throws on destructuring and lands in the outer catch, whose
re-read of the consumed body fails, yielding the plain-text apology, not
the 400 response. -/
theorem C7_invalid_message_400 (b : Json) (hb : b ≠ Json.null)
    (hmsg : ∀ s : List Char, jsGetField b messageKey ≠ some (Json.str s)) :
    POST_noApiKey (some b) = RelayResponse.badRequest invalidMessagePayload
      ∧ responseStreamChunks (POST_noApiKey (some b)) = [] := by
  have hmain : POST_noApiKey (some b) = RelayResponse.badRequest invalidMessagePayload := by
    cases b with
    | null => exact absurd rfl hb
    | obj fields =>
      show (match jsGetField (Json.obj fields) messageKey with
        | some (Json.str s) =>
          if s = [] then RelayResponse.badRequest invalidMessagePayload
          else streamFallbackResponse s (jsGetField (Json.obj fields) searchTypeKey)
        | _ => RelayResponse.badRequest invalidMessagePayload) = _
      rcases hf : jsGetField (Json.obj fields) messageKey with _ | j
      · rfl
      · cases j with
        | str s => exact absurd hf (hmsg s)
        | null => rfl
        | bool v => rfl
        | num lexeme => rfl
        | arr elts => rfl
        | obj fields2 => rfl
    | bool v => rfl
    | num lexeme => rfl
    | str s2 => rfl
    | arr elts => rfl
  exact ⟨hmain, by rw [hmain]; rfl⟩

/-- C7, counterexample to the claim as stated: the JSON body `null` lacks
a `message` field, yet destructuring `null` throws before validation, so
the handler returns the plain-text apology (status 200), not 400. -/
theorem C7_counterexample :
    POST_noApiKey (some Json.null) = RelayResponse.apology apologyText
      ∧ POST_noApiKey (some Json.null) ≠ RelayResponse.badRequest invalidMessagePayload :=
  ⟨rfl, fun h => RelayResponse.noConfusion h⟩

theorem C7_witness :
    POST_noApiKey (some (Json.obj [])) = RelayResponse.badRequest invalidMessagePayload
      ∧ responseStreamChunks (POST_noApiKey (some (Json.obj []))) = [] :=
  C7_invalid_message_400 (Json.obj []) (fun h => Json.noConfusion h)
    (fun s h => Option.noConfusion h)

/-- C10: a request whose `message` is present with string type but equal
to the empty string is rejected exactly like an absent or non-string
message: the empty string is falsy, so `!message` fires and the handler
responds 400 with the JSON error payload. -/
theorem C10_empty_message_400 (b : Json)
    (h : jsGetField b messageKey = some (Json.str [])) :
    POST_noApiKey (some b) = RelayResponse.badRequest invalidMessagePayload := by
  cases b with
  | null => exact absurd h (by simp [jsGetField])
  | obj fields =>
    show (match jsGetField (Json.obj fields) messageKey with
      | some (Json.str s) =>
        if s = [] then RelayResponse.badRequest invalidMessagePayload
        else streamFallbackResponse s (jsGetField (Json.obj fields) searchTypeKey)
      | _ => RelayResponse.badRequest invalidMessagePayload) = _
    rw [h]
    rfl
  | bool v => exact absurd h (by simp [jsGetField])
  | num lexeme => exact absurd h (by simp [jsGetField])
  | str s2 => exact absurd h (by simp [jsGetField])
  | arr elts => exact absurd h (by simp [jsGetField])

theorem C10_witness :
    POST_noApiKey (some w10Body) = RelayResponse.badRequest invalidMessagePayload :=
  C10_empty_message_400 w10Body rfl

end ChatApi
